import Mathlib

/-!
Verification of the energy-efficient Serverledge solver unit
(`internal/solver/solver.go`).

The Go code is shallowly embedded: Go `float64` values are modelled as exact
rationals (`ℚ`), Go `int` conversions as truncation toward zero, `math.Round`
as rounding half away from zero, Go maps as canonical key-sorted association
lists, Go slices as Lean lists, out-of-range slice indexing as an explicit
`panic` outcome, and the etcd coordination store as an explicit state value.
-/

namespace Solver

/-- Go conversion `int(x)` on a `float64`: truncation toward zero
(`num/den` in truncating integer division, the denominator being positive). -/
def ratTrunc (q : ℚ) : Int :=
  q.num.tdiv q.den

/-- Go `math.Round`: rounds to the nearest integer, half away from zero;
`⌊q + 1/2⌋` for `q ≥ 0` and `⌈q - 1/2⌉` for `q < 0`, written with truncating
integer division on the (nonnegative) numerators so that it computes. -/
def goRound (q : ℚ) : Int :=
  if 0 ≤ q.num then (2 * q.num + q.den).tdiv (2 * q.den)
  else -((2 * (-q.num) + q.den).tdiv (2 * q.den))

/-- The spec's `round(x, 2 decimal places)`. -/
def round2 (q : ℚ) : ℚ :=
  (goRound (q * 100) : ℚ) / 100

/-- Modelled from the spec: the node-registry record for one peer
(`registration.StatusInformation`, declared outside this unit); the fields are
the ones `prepareNodeInfo` reads, with the advertised service URL. -/
structure StatusInformation where
  Url : String
  TotalMemoryMB : Int
  ComputationalCapacity : ℚ
  MaximumCapacity : ℚ
  IPC : ℚ
  PowerConsumption : ℚ
deriving DecidableEq, Repr

/-- Modelled from the spec: the local node resource record (`node.Resources`,
declared outside this unit), as read by `prepareNodeInfo` and
`computeFunctionsAllocation`. -/
structure NodeResources where
  TotalMemoryMB : Int
  ComputationalCapacity : ℚ
  MaximumCapacity : ℚ
  IPC : ℚ
  PowerConsumption : ℚ
deriving DecidableEq, Repr

/-- The five index-aligned node arrays (`NodeInformation`, declared outside
this unit; shape fixed by its use in `prepareNodeInfo` and `solve`). -/
structure NodeInformation where
  TotalMemoryMB : List Int
  ComputationalCapacity : List Int
  MaximumCapacity : List Int
  IPC : List Int
  PowerConsumption : List Int
deriving DecidableEq, Repr

/-- The four index-aligned function arrays (`FunctionInformation`, declared
outside this unit; shape fixed by its use in `prepareFunctionInfo`). -/
structure FunctionInformation where
  MemoryMB : List Int
  Workload : List Int
  Deadline : List Int
  Invocations : List Int
deriving DecidableEq, Repr

/-- Modelled from the spec: a function-registry metadata record
(`function.Function`, declared outside this unit); the fields read by
`prepareFunctionInfo` plus the derived `CPUDemand` written by
`computeFunctionsAllocation`. -/
structure FunctionMeta where
  MemoryMB : ℚ
  Workload : ℚ
  Deadline : ℚ
  Invocations : ℚ
  CPUDemand : ℚ
deriving DecidableEq, Repr

/-- The Go expression `server.Url[7 : len(server.Url)-5]`: a fixed-offset byte
substring dropping the first 7 bytes and the last 5 bytes (the URLs in play
are ASCII, so bytes coincide with characters). -/
def extractNodeIp (url : String) : String :=
  (url.drop 7).take (url.length - 12)

/-- The characters after the first `://` separator (the whole input when no
separator occurs). -/
def afterSchemeSep : List Char → List Char
  | ':' :: '/' :: '/' :: rest => rest
  | _ :: rest => afterSchemeSep rest
  | [] => []

/-- Modelled from the spec: the derivation the spec prescribes — a structural
parse of the advertised service URL into its host part: the text between the
`://` separator and the `:` introducing the port. -/
def urlHost (url : String) : String :=
  ⟨(afterSchemeSep url.data).takeWhile (fun c => c ≠ ':')⟩

/-- `prepareNodeInfo`: builds the five parallel node arrays and the IP list
from the peer map (modelled as the list of its values in iteration order)
followed by the local node. Mirrors the Go loop that fills indexes
`0..len(serversMap)-1` from the map and index `len(serversMap)` from
`node.Resources` and the local IP. -/
def prepareNodeInfo (servers : List StatusInformation) (localRes : NodeResources)
    (localIp : String) : NodeInformation × List String :=
  (⟨servers.map (fun s => s.TotalMemoryMB) ++ [localRes.TotalMemoryMB],
    servers.map (fun s => ratTrunc s.ComputationalCapacity)
      ++ [ratTrunc localRes.ComputationalCapacity],
    servers.map (fun s => ratTrunc s.MaximumCapacity)
      ++ [ratTrunc localRes.MaximumCapacity],
    servers.map (fun s => ratTrunc (s.IPC * 10)) ++ [ratTrunc (localRes.IPC * 10)],
    servers.map (fun s => ratTrunc s.PowerConsumption)
      ++ [ratTrunc localRes.PowerConsumption]⟩,
   servers.map (fun s => extractNodeIp s.Url) ++ [localIp])

/-- The entry `prepareFunctionInfo` produces for one function name: zero-valued
when the metadata lookup fails (`GetFunction` returns not-found and the loop
`continue`s over the zero-initialized arrays), otherwise the four converted
metadata fields. -/
def functionEntry (getFunction : String → Option FunctionMeta) (name : String) :
    Int × Int × Int × Int :=
  match getFunction name with
  | none => (0, 0, 0, 0)
  | some f =>
      (ratTrunc f.MemoryMB, ratTrunc (f.Workload / 1000000),
       ratTrunc f.Deadline, ratTrunc f.Invocations)

/-- `prepareFunctionInfo`: builds the four index-aligned function arrays,
looking up each name in the function registry (`getFunction` models
`function.GetFunction`). -/
def prepareFunctionInfo (functions : List String)
    (getFunction : String → Option FunctionMeta) : FunctionInformation :=
  ⟨functions.map (fun n => (functionEntry getFunction n).1),
   functions.map (fun n => (functionEntry getFunction n).2.1),
   functions.map (fun n => (functionEntry getFunction n).2.2.1),
   functions.map (fun n => (functionEntry getFunction n).2.2.2)⟩

/-- The key order used for the canonical form of a Go map: lexicographic on
the character list (a kernel-computable linear order on `String`). -/
def keyLt (a b : String) : Prop :=
  a.data < b.data

instance (a b : String) : Decidable (keyLt a b) := by
  unfold keyLt; infer_instance

/-- Assignment `m[k] = v` on a Go map, modelled on association lists kept in
canonical key-sorted form (a Go map is unordered, so the canonical form makes
Go map equality plain list equality). -/
def mapUpsert {α : Type} : List (String × α) → String → α → List (String × α)
  | [], k, v => [(k, v)]
  | (k₀, v₀) :: rest, k, v =>
    if keyLt k k₀ then (k, v) :: (k₀, v₀) :: rest
    else if k = k₀ then (k, v) :: rest
    else (k₀, v₀) :: mapUpsert rest k v

/-- Go map read `m[k]` (presence view). -/
def mapLookup {α : Type} : List (String × α) → String → Option α
  | [], _ => none
  | (k₀, v₀) :: rest, k => if k = k₀ then some v₀ else mapLookup rest k

/-- One decoded JSON value inside the solver response's `NodesInstances`
sequences (a Go `interface{}`): a JSON number decodes to `float64`; anything
else fails the `.(float64)` type assertion in `computeFunctionsAllocation`. -/
inductive GoValue where
  | num (q : ℚ)
  | other (tname : String)
deriving DecidableEq, Repr

/-- The solver response (`SolverResults`, declared outside this unit; shape
fixed by the JSON document described in the spec and by its uses in `solve`
and `computeFunctionsAllocation`). `NodesInstances` is a Go map from node
index, modelled as its entry list in iteration order. -/
structure SolverResults where
  SolverWalltime : ℚ
  SolverStatusName : String
  ObjectiveValue : ℚ
  ActiveNodesIndexes : List Int
  FunctionsCapacity : List ℚ
  NodesInstances : List (Int × List GoValue)
deriving DecidableEq, Repr

/-- One function's allocation entry (`FunctionAllocation`, declared outside
this unit): the capacity plus the per-node-IP instance map. -/
structure FunctionAllocation where
  Capacity : ℚ
  Instances : List (String × Int)
deriving DecidableEq, Repr

/-- The allocation plan (`FunctionsAllocation`): a Go map from function name,
in canonical form. -/
abbrev FunctionsAllocation := List (String × FunctionAllocation)

/-- Outcome of running a piece of Go code: normal value, returned `error`, or
runtime panic (out-of-range slice index). -/
inductive GoOutcome (α : Type) where
  | ok (a : α)
  | err (msg : String)
  | panic (msg : String)
deriving DecidableEq, Repr

/-- Whether a piece of Go code ran to a normal value. -/
def GoOutcome.isOk {α : Type} : GoOutcome α → Bool
  | .ok _ => true
  | _ => false

/-- Whether a piece of Go code hit a runtime panic. -/
def GoOutcome.isPanic {α : Type} : GoOutcome α → Bool
  | .panic _ => true
  | _ => false

/-- The inner loop of `computeFunctionsAllocation` for function index `i`:
visits every entry of `results.NodesInstances`; `instances[i]` panics when `i`
is out of range; a `float64` entry is truncated to `int` and stored under
`nodeIp[key]` (which panics when `key` is out of range); a non-`float64`
entry is logged and skipped. -/
def buildInstancesMap (nodeIp : List String) (i : Nat) :
    List (Int × List GoValue) → List (String × Int) → GoOutcome (List (String × Int))
  | [], acc => .ok acc
  | (key, instances) :: rest, acc =>
    if h : i < instances.length then
      match instances.get ⟨i, h⟩ with
      | .num q =>
          if hk : 0 ≤ key ∧ key.toNat < nodeIp.length then
            buildInstancesMap nodeIp i rest
              (mapUpsert acc (nodeIp.get ⟨key.toNat, hk.2⟩) (ratTrunc q))
          else .panic "index out of range"
      | .other _ => buildInstancesMap nodeIp i rest acc
    else .panic "index out of range"

/-- The main loop of `computeFunctionsAllocation`, one iteration per function
name: build the instance map, record `{Capacity: FunctionsCapacity[i],
Instances: ...}` under the name, look the function up in the registry
(not-found aborts with an error), set its derived
`CPUDemand = math.Round(FunctionsCapacity[i]/maxCap*100)/100` and persist it
(`SaveToEtcd`; a failure aborts with that error). The persisted-record store
is threaded explicitly so that the side effects of an aborted run stay
visible. -/
def processFunctions (results : SolverResults) (nodeIp : List String)
    (getFunction : String → Option FunctionMeta) (saveFails : String → Bool)
    (maxCap : ℚ) :
    Nat → List String → FunctionsAllocation → List (String × FunctionMeta) →
    GoOutcome FunctionsAllocation × List (String × FunctionMeta)
  | _, [], alloc, persisted => (.ok alloc, persisted)
  | i, name :: rest, alloc, persisted =>
    match buildInstancesMap nodeIp i results.NodesInstances [] with
    | .panic m => (.panic m, persisted)
    | .err m => (.err m, persisted)
    | .ok instMap =>
      if h : i < results.FunctionsCapacity.length then
        let cap := results.FunctionsCapacity.get ⟨i, h⟩
        let alloc1 := mapUpsert alloc name ⟨cap, instMap⟩
        match getFunction name with
        | none => (.err "Function not found", persisted)
        | some f =>
          let f1 := { f with CPUDemand := (goRound (cap / maxCap * 100) : ℚ) / 100 }
          if saveFails name then (.err "SaveToEtcd failed", persisted)
          else processFunctions results nodeIp getFunction saveFails maxCap
                 (i + 1) rest alloc1 (mapUpsert persisted name f1)
      else (.panic "index out of range", persisted)

/-- `computeFunctionsAllocation(results, functions, nodeIp)`: the registry
lookup, the per-function save-failure behaviour and the initial persisted
store are explicit parameters; `maxCap` is `node.Resources.MaximumCapacity`. -/
def computeFunctionsAllocation (results : SolverResults) (functions : List String)
    (nodeIp : List String) (getFunction : String → Option FunctionMeta)
    (saveFails : String → Bool) (maxCap : ℚ)
    (persisted : List (String × FunctionMeta)) :
    GoOutcome FunctionsAllocation × List (String × FunctionMeta) :=
  processFunctions results nodeIp getFunction saveFails maxCap 0 functions [] persisted

/-- Externally visible effects of one `solve()` tick: the foreign
`C.startSolver` call and the publish of the plan to etcd. -/
inductive SolveEffect where
  | solverCall
  | publish (allocation : FunctionsAllocation)
deriving DecidableEq, Repr

/-- `solve()`: gets the servers map and function list, returns early when
`numberOfNodes == 0 || numberOfFunctions == 0` (with
`numberOfNodes = len(serversMap)+1`), otherwise prepares the snapshot, calls
the external solver (its parsed response is the oracle `solverResponse`),
computes the allocation and, when that succeeds, saves it to etcd. A
`log.Fatalf` path terminates the process, so the trace then ends after the
solver call. -/
def solve (serversMap : List (String × StatusInformation)) (functions : List String)
    (solverResponse : SolverResults) (getFunction : String → Option FunctionMeta)
    (saveFails : String → Bool) (localRes : NodeResources) (localIp : String)
    (persisted : List (String × FunctionMeta)) : List SolveEffect :=
  let numberOfNodes := serversMap.length + 1
  let numberOfFunctions := functions.length
  if numberOfNodes = 0 ∨ numberOfFunctions = 0 then []
  else
    let prepared := prepareNodeInfo (serversMap.map Prod.snd) localRes localIp
    let _functionInfo := prepareFunctionInfo functions getFunction
    match computeFunctionsAllocation solverResponse functions prepared.2 getFunction
        saveFails localRes.MaximumCapacity persisted with
    | (.ok alloc, _) => [.solverCall, .publish alloc]
    | _ => [.solverCall]

/-- A JSON document, at the level `encoding/json` operates on for the types in
play: objects (with fields in the order the encoder emits them — Go sorts map
keys), numbers and strings. The serialize/deserialize round trip is settled at
this level: Go's text rendering of a JSON document parses back to the same
document. -/
inductive Json where
  | num (q : ℚ)
  | str (s : String)
  | obj (fields : List (String × Json))

/-- `json.Marshal` of the per-node instance map: an object with one integral
number per IP; the canonical map form is already in the sorted key order the
encoder emits. -/
def encodeInstances (m : List (String × Int)) : Json :=
  .obj (m.map fun p => (p.1, .num (p.2 : ℚ)))

/-- `json.Marshal` of one `FunctionAllocation` struct value. -/
def encodeFunctionAllocation (fa : FunctionAllocation) : Json :=
  .obj [("Capacity", .num fa.Capacity), ("Instances", encodeInstances fa.Instances)]

/-- `json.Marshal` of a `FunctionsAllocation` map. -/
def encodeAllocation (a : FunctionsAllocation) : Json :=
  .obj (a.map fun p => (p.1, encodeFunctionAllocation p.2))

/-- Object-field lookup used by `json.Unmarshal` (encoder output has unique
keys, so first match suffices). -/
def jsonField : List (String × Json) → String → Option Json
  | [], _ => none
  | (k₀, v₀) :: rest, k => if k = k₀ then some v₀ else jsonField rest k

/-- `json.Unmarshal` of a number into a Go `int`: only integral numbers are
accepted. -/
def decodeInt (j : Json) : Option Int :=
  match j with
  | .num q => if q.den = 1 then some q.num else none
  | _ => none

/-- `json.Unmarshal` of an object's fields into a `map[string]int`, inserting
the entries one by one. -/
def decodeInstancesFields :
    List (String × Json) → List (String × Int) → Option (List (String × Int))
  | [], acc => some acc
  | (k, v) :: rest, acc =>
    match decodeInt v with
    | some n => decodeInstancesFields rest (mapUpsert acc k n)
    | none => none

/-- `json.Unmarshal` into the `Instances` map. -/
def decodeInstances : Json → Option (List (String × Int))
  | .obj fields => decodeInstancesFields fields []
  | _ => none

/-- `json.Unmarshal` into one `FunctionAllocation` struct value: fields are
matched by name; a missing field leaves the zero value. -/
def decodeFunctionAllocation (j : Json) : Option FunctionAllocation :=
  match j with
  | .obj fields =>
    match
      (match jsonField fields "Capacity" with
       | none => some (0 : ℚ)
       | some (.num q) => some q
       | some _ => none) with
    | none => none
    | some c =>
      match
        (match jsonField fields "Instances" with
         | none => some ([] : List (String × Int))
         | some ij => decodeInstances ij) with
      | none => none
      | some inst => some ⟨c, inst⟩
  | _ => none

/-- `json.Unmarshal` of an object's fields into a `FunctionsAllocation` map. -/
def decodeAllocFields :
    List (String × Json) → FunctionsAllocation → Option FunctionsAllocation
  | [], acc => some acc
  | (k, v) :: rest, acc =>
    match decodeFunctionAllocation v with
    | some fa => decodeAllocFields rest (mapUpsert acc k fa)
    | none => none

/-- `json.Unmarshal` into a `FunctionsAllocation`. -/
def decodeAllocation : Json → Option FunctionsAllocation
  | .obj fields => decodeAllocFields fields []
  | _ => none

/-- The canonical-form invariant of a Go map modelled as an association list:
keys strictly increasing. -/
def sortedKeys {α : Type} (m : List (String × α)) : Prop :=
  m.Pairwise (fun a b => keyLt a.1 b.1)

instance {α : Type} (m : List (String × α)) : Decidable (sortedKeys m) := by
  unfold sortedKeys; infer_instance

/-- A plan value in canonical Go-map form: the outer map and every inner
instance map are key-sorted. -/
def planWF (a : FunctionsAllocation) : Prop :=
  sortedKeys a ∧ ∀ p ∈ a, sortedKeys p.2.Instances

instance (a : FunctionsAllocation) : Decidable (planWF a) := by
  unfold planWF; infer_instance

/-- The etcd coordination store, restricted to the single well-known
`allocation` key the unit uses: the stored payload together with the absolute
expiry time of the lease it is bound to. -/
structure EtcdState where
  allocationValue : Option (Json × Nat)

/-- `saveAllocationToEtcd`: marshal the plan, grant a 60-unit lease, and put
the payload under the `allocation` key bound to that lease, overwriting any
prior value. -/
def saveAllocationToEtcd (now : Nat) (_st : EtcdState)
    (allocation : FunctionsAllocation) : EtcdState :=
  ⟨some (encodeAllocation allocation, now + 60)⟩

/-- `getAllocationFromEtcd`: read the `allocation` key (gone once its lease
has expired — `No data found`), then unmarshal. -/
def getAllocationFromEtcd (now : Nat) (st : EtcdState) :
    Except String FunctionsAllocation :=
  match st.allocationValue with
  | none => .error "No data found for key allocation"
  | some (payload, expiry) =>
    if now < expiry then
      match decodeAllocation payload with
      | some a => .ok a
      | none => .error "Failed to unmarshal allocation"
    else .error "No data found for key allocation"

lemma keyLt_trans {a b c : String} (h1 : keyLt a b) (h2 : keyLt b c) : keyLt a c :=
  lt_trans h1 h2

lemma keyLt_asymm {a b : String} (h : keyLt a b) : ¬ keyLt b a :=
  lt_asymm h

lemma keyLt_irrefl (a : String) : ¬ keyLt a a :=
  lt_irrefl a.data

lemma keyLt_ne {a b : String} (h : keyLt a b) : a ≠ b := by
  intro hab; rw [hab] at h; exact keyLt_irrefl b h

lemma keyLt_of_not_of_ne {a b : String} (h1 : ¬ keyLt a b) (h2 : a ≠ b) : keyLt b a := by
  rcases lt_trichotomy a.data b.data with h | h | h
  · exact absurd h h1
  · exact absurd (congrArg String.mk h) h2
  · exact h

lemma mapLookup_upsert_self {α : Type} (m : List (String × α)) (k : String) (v : α) :
    mapLookup (mapUpsert m k v) k = some v := by
  induction m with
  | nil => simp [mapUpsert, mapLookup]
  | cons p rest ih =>
    obtain ⟨k₀, v₀⟩ := p
    by_cases h1 : keyLt k k₀
    · simp [mapUpsert, h1, mapLookup]
    · by_cases h2 : k = k₀
      · subst h2
        have h3 : ¬ keyLt k k := keyLt_irrefl k
        simp [mapUpsert, h3, mapLookup]
      · simp [mapUpsert, h1, h2, mapLookup, ih]

lemma mapLookup_upsert_ne {α : Type} (m : List (String × α)) (k k' : String) (v : α)
    (h : k' ≠ k) : mapLookup (mapUpsert m k v) k' = mapLookup m k' := by
  induction m with
  | nil => simp [mapUpsert, mapLookup, h]
  | cons p rest ih =>
    obtain ⟨k₀, v₀⟩ := p
    by_cases h1 : keyLt k k₀
    · simp [mapUpsert, h1, mapLookup, h]
    · by_cases h2 : k = k₀
      · subst h2; simp [mapUpsert, h1, mapLookup, h]
      · simp [mapUpsert, h1, h2, mapLookup, ih]

lemma mem_mapUpsert {α : Type} (k : String) (v : α) (p : String × α) :
    ∀ m : List (String × α), p ∈ mapUpsert m k v → p = (k, v) ∨ p ∈ m := by
  intro m
  induction m with
  | nil => intro hp; simpa [mapUpsert] using hp
  | cons q rest ih =>
    intro hp
    obtain ⟨k₀, v₀⟩ := q
    by_cases h1 : keyLt k k₀
    · simp only [mapUpsert, if_pos h1, List.mem_cons] at hp
      rcases hp with hp | hp | hp
      · exact Or.inl hp
      · exact Or.inr (by simp [hp])
      · exact Or.inr (by simp [hp])
    · by_cases h2 : k = k₀
      · simp only [mapUpsert, if_neg h1, if_pos h2, List.mem_cons] at hp
        rcases hp with hp | hp
        · exact Or.inl hp
        · exact Or.inr (by simp [hp])
      · simp only [mapUpsert, if_neg h1, if_neg h2, List.mem_cons] at hp
        rcases hp with hp | hp
        · exact Or.inr (by simp [hp])
        · rcases ih hp with hp | hp
          · exact Or.inl hp
          · exact Or.inr (by simp [hp])

lemma mapUpsert_of_forall_lt {α : Type} (m : List (String × α)) (k : String) (v : α)
    (h : ∀ p ∈ m, keyLt p.1 k) : mapUpsert m k v = m ++ [(k, v)] := by
  induction m with
  | nil => simp [mapUpsert]
  | cons p rest ih =>
    obtain ⟨k₀, v₀⟩ := p
    have hk₀ : keyLt k₀ k := h (k₀, v₀) (by simp)
    have h1 : ¬ keyLt k k₀ := keyLt_asymm hk₀
    have h2 : k ≠ k₀ := (keyLt_ne hk₀).symm
    simp only [mapUpsert, if_neg h1, if_neg h2, List.cons_append, List.cons.injEq, true_and]
    exact ih (fun p hp => h p (by simp [hp]))

lemma decodeInt_intCast (n : Int) : decodeInt (.num (n : ℚ)) = some n := by
  simp [decodeInt]

lemma decodeInstancesFields_encode (l : List (String × Int)) :
    ∀ acc : List (String × Int), sortedKeys (acc ++ l) →
      decodeInstancesFields (l.map fun p => (p.1, Json.num (p.2 : ℚ))) acc
        = some (acc ++ l) := by
  induction l with
  | nil => intro acc _; simp [decodeInstancesFields]
  | cons p rest ih =>
    intro acc hacc
    obtain ⟨k, n⟩ := p
    have hlt : ∀ q ∈ acc, keyLt q.1 k := by
      rw [sortedKeys, List.pairwise_append] at hacc
      exact fun q hq => hacc.2.2 q hq (k, n) (by simp)
    simp only [List.map_cons, decodeInstancesFields, decodeInt_intCast]
    rw [mapUpsert_of_forall_lt acc k n hlt]
    have := ih (acc ++ [(k, n)]) (by simpa using hacc)
    simpa using this

lemma decodeInstances_encode (m : List (String × Int)) (h : sortedKeys m) :
    decodeInstances (encodeInstances m) = some m := by
  have := decodeInstancesFields_encode m [] (by simpa using h)
  simpa [decodeInstances, encodeInstances] using this

lemma decodeFunctionAllocation_encode (fa : FunctionAllocation)
    (h : sortedKeys fa.Instances) :
    decodeFunctionAllocation (encodeFunctionAllocation fa) = some fa := by
  simp +decide [decodeFunctionAllocation, encodeFunctionAllocation, jsonField,
    decodeInstances_encode fa.Instances h]

lemma decodeAllocFields_encode (l : FunctionsAllocation) :
    ∀ acc : FunctionsAllocation, sortedKeys (acc ++ l) →
      (∀ p ∈ l, sortedKeys p.2.Instances) →
      decodeAllocFields (l.map fun p => (p.1, encodeFunctionAllocation p.2)) acc
        = some (acc ++ l) := by
  induction l with
  | nil => intro acc _ _; simp [decodeAllocFields]
  | cons p rest ih =>
    intro acc hacc hinst
    obtain ⟨k, fa⟩ := p
    have hlt : ∀ q ∈ acc, keyLt q.1 k := by
      rw [sortedKeys, List.pairwise_append] at hacc
      exact fun q hq => hacc.2.2 q hq (k, fa) (by simp)
    simp only [List.map_cons, decodeAllocFields,
      decodeFunctionAllocation_encode fa (hinst (k, fa) (by simp))]
    rw [mapUpsert_of_forall_lt acc k fa hlt]
    have := ih (acc ++ [(k, fa)]) (by simpa using hacc)
      (fun q hq => hinst q (by simp [hq]))
    simpa using this

lemma decodeAllocation_encode (a : FunctionsAllocation) (h : planWF a) :
    decodeAllocation (encodeAllocation a) = some a := by
  have := decodeAllocFields_encode a [] (by simpa using h.1) h.2
  simpa [decodeAllocation, encodeAllocation] using this

/-- C2: publishing an allocation plan (serialize, lease-grant, put under the
well-known key) and getting it back before the lease expires returns a plan
equal to the one published: the serialize-then-deserialize round trip is the
identity on (canonical-form) plans. -/
theorem publish_get_roundtrip (a : FunctionsAllocation) (st : EtcdState) (now t : Nat)
    (hwf : planWF a) (ht : t < now + 60) :
    getAllocationFromEtcd t (saveAllocationToEtcd now st a) = .ok a := by
  simp [getAllocationFromEtcd, saveAllocationToEtcd, ht, decodeAllocation_encode a hwf]

/-- Witness for C2 at a concrete plan, published at time 0 and read at
time 59, one unit before the 60-unit lease expires. -/
theorem publish_get_roundtrip_witness :
    planWF [("f", ⟨2, [("10.0.0.1", 2)]⟩)] ∧ (59 : Nat) < 0 + 60 ∧
    getAllocationFromEtcd 59 (saveAllocationToEtcd 0 ⟨none⟩ [("f", ⟨2, [("10.0.0.1", 2)]⟩)])
      = .ok [("f", ⟨2, [("10.0.0.1", 2)]⟩)] :=
  ⟨by decide, by decide,
    publish_get_roundtrip [("f", ⟨2, [("10.0.0.1", 2)]⟩)] ⟨none⟩ 0 59 (by decide) (by decide)⟩

lemma map_append_single_getElem {α β : Type} (l : List α) (f : α → β) (x : β) (i : Nat)
    (hi : i < l.length) : (l.map f ++ [x])[i]? = some (f (l.get ⟨i, hi⟩)) := by
  rw [List.getElem?_append_left (by simpa using hi)]
  rw [List.getElem?_map]
  rw [List.getElem?_eq_getElem hi]
  rfl

lemma map_getElem_some {α β : Type} (l : List α) (f : α → β) (i : Nat)
    (hi : i < l.length) : (l.map f)[i]? = some (f (l.get ⟨i, hi⟩)) := by
  rw [List.getElem?_map, List.getElem?_eq_getElem hi]
  rfl

/-- C1 (amended): `solve()` is a no-op exactly when the function list is
empty; zero peers alone never triggers the early return, because the guard
tests `len(serversMap)+1 == 0`, which cannot hold. -/
theorem solve_noop_iff_functions_empty (serversMap : List (String × StatusInformation))
    (functions : List String) (solverResponse : SolverResults)
    (getFunction : String → Option FunctionMeta) (saveFails : String → Bool)
    (localRes : NodeResources) (localIp : String)
    (persisted : List (String × FunctionMeta)) :
    solve serversMap functions solverResponse getFunction saveFails localRes localIp
        persisted = []
      ↔ functions = [] := by
  by_cases hf : functions = []
  · subst hf; simp [solve]
  · have hcond : ¬ (serversMap.length + 1 = 0 ∨ functions.length = 0) := by
      push_neg
      exact ⟨Nat.succ_ne_zero _, by simpa [List.length_eq_zero] using hf⟩
    simp only [solve, if_neg hcond]
    constructor
    · intro h
      exfalso
      rcases hres : computeFunctionsAllocation solverResponse functions
          (prepareNodeInfo (serversMap.map Prod.snd) localRes localIp).2 getFunction
          saveFails localRes.MaximumCapacity persisted with ⟨o, st⟩
      rw [hres] at h
      cases o <;> simp at h
    · intro h; exact absurd h hf

/-- C1 counterexample: with zero peers beyond the local node and one
registered function, `solve()` is not a no-op — it calls the external solver
and publishes a plan, because the guard compares `len(serversMap)+1` (which
is never zero) against zero rather than the peer count. -/
theorem solve_zero_peers_not_noop :
    solve [] ["f"] ⟨0, "OPTIMAL", 0, [], [150], []⟩
      (fun _ => some ⟨128, 0, 0, 0, 0⟩) (fun _ => false) ⟨1000, 400, 200, 1, 400⟩
      "1.2.3.4" []
    = [.solverCall, .publish [("f", ⟨150, []⟩)]] := by
  decide

/-- C3: the peer IP is produced by the fixed-offset substring
`Url[7 : len(Url)-5]`, not by a structural URL parse: on the well-formed URL
`http://10.0.0.1:80` the snapshot records `10.0.0`, while the URL's host is
`10.0.0.1`. -/
theorem peer_ip_fixed_offset_substring :
    (prepareNodeInfo [⟨"http://10.0.0.1:80", 1024, 2000, 1000, 1, 400⟩]
        ⟨2048, 3000, 1500, 2, 500⟩ "1.2.3.4").2
      = ["10.0.0", "1.2.3.4"]
    ∧ urlHost "http://10.0.0.1:80" = "10.0.0.1"
    ∧ extractNodeIp "http://10.0.0.1:80" ≠ urlHost "http://10.0.0.1:80" := by
  exact ⟨by decide, by decide, by decide⟩

/-- C7: for a snapshot built from a peer map of size `n`, all five node
arrays and the IP list have length `n+1`, the local node occupies the last
position of each, and for `i < n` the `i`-th entry of every array and of the
IP list is taken from peer `i` of the iteration. -/
theorem snapshot_index_alignment (servers : List StatusInformation)
    (localRes : NodeResources) (localIp : String) (ni : NodeInformation)
    (ips : List String)
    (hp : prepareNodeInfo servers localRes localIp = (ni, ips)) :
    (ni.TotalMemoryMB.length = servers.length + 1
      ∧ ni.ComputationalCapacity.length = servers.length + 1
      ∧ ni.MaximumCapacity.length = servers.length + 1
      ∧ ni.IPC.length = servers.length + 1
      ∧ ni.PowerConsumption.length = servers.length + 1
      ∧ ips.length = servers.length + 1)
    ∧ (ni.TotalMemoryMB.getLast? = some localRes.TotalMemoryMB
      ∧ ni.ComputationalCapacity.getLast? = some (ratTrunc localRes.ComputationalCapacity)
      ∧ ni.MaximumCapacity.getLast? = some (ratTrunc localRes.MaximumCapacity)
      ∧ ni.IPC.getLast? = some (ratTrunc (localRes.IPC * 10))
      ∧ ni.PowerConsumption.getLast? = some (ratTrunc localRes.PowerConsumption)
      ∧ ips.getLast? = some localIp)
    ∧ (∀ i (hi : i < servers.length),
        ni.TotalMemoryMB[i]? = some ((servers.get ⟨i, hi⟩).TotalMemoryMB)
        ∧ ni.ComputationalCapacity[i]?
            = some (ratTrunc ((servers.get ⟨i, hi⟩).ComputationalCapacity))
        ∧ ni.MaximumCapacity[i]? = some (ratTrunc ((servers.get ⟨i, hi⟩).MaximumCapacity))
        ∧ ni.IPC[i]? = some (ratTrunc ((servers.get ⟨i, hi⟩).IPC * 10))
        ∧ ni.PowerConsumption[i]? = some (ratTrunc ((servers.get ⟨i, hi⟩).PowerConsumption))
        ∧ ips[i]? = some (extractNodeIp (servers.get ⟨i, hi⟩).Url)) := by
  rw [prepareNodeInfo] at hp
  injection hp with h1 h2
  subst h1; subst h2
  refine ⟨⟨by simp, by simp, by simp, by simp, by simp, by simp⟩,
          ⟨?_, ?_, ?_, ?_, ?_, ?_⟩, ?_⟩
  · exact List.getLast?_concat _
  · exact List.getLast?_concat _
  · exact List.getLast?_concat _
  · exact List.getLast?_concat _
  · exact List.getLast?_concat _
  · exact List.getLast?_concat _
  · intro i hi
    exact ⟨map_append_single_getElem _ _ _ i hi, map_append_single_getElem _ _ _ i hi,
      map_append_single_getElem _ _ _ i hi, map_append_single_getElem _ _ _ i hi,
      map_append_single_getElem _ _ _ i hi, map_append_single_getElem _ _ _ i hi⟩

/-- Witness for C7 with one peer: the IP list has length 2, ends with the
local IP, and starts with the peer's extracted IP. -/
theorem snapshot_index_alignment_witness :
    (prepareNodeInfo [⟨"http://10.0.0.1:1323", 1024, 2000, 1000, 1, 400⟩]
        ⟨2048, 3000, 1500, 2, 500⟩ "1.2.3.4").2.length = 1 + 1
    ∧ (prepareNodeInfo [⟨"http://10.0.0.1:1323", 1024, 2000, 1000, 1, 400⟩]
        ⟨2048, 3000, 1500, 2, 500⟩ "1.2.3.4").2.getLast? = some "1.2.3.4"
    ∧ (prepareNodeInfo [⟨"http://10.0.0.1:1323", 1024, 2000, 1000, 1, 400⟩]
        ⟨2048, 3000, 1500, 2, 500⟩ "1.2.3.4").2[0]?
        = some (extractNodeIp "http://10.0.0.1:1323") := by
  have h := snapshot_index_alignment
    [⟨"http://10.0.0.1:1323", 1024, 2000, 1000, 1, 400⟩]
    ⟨2048, 3000, 1500, 2, 500⟩ "1.2.3.4" _ _ rfl
  exact ⟨h.1.2.2.2.2.2, h.2.1.2.2.2.2.2, (h.2.2 0 (by decide)).2.2.2.2.2⟩

/-- C8: during snapshot assembly, a failed metadata lookup leaves exactly
that function's four entries zero-valued, the builder still returns (no
abort), and every function whose lookup succeeds keeps its converted
metadata in its own slot. -/
theorem function_lookup_soft_fail (functions : List String)
    (getFunction : String → Option FunctionMeta) (i : Nat)
    (hi : i < functions.length)
    (hfail : getFunction (functions.get ⟨i, hi⟩) = none) :
    ((prepareFunctionInfo functions getFunction).MemoryMB[i]? = some 0
      ∧ (prepareFunctionInfo functions getFunction).Workload[i]? = some 0
      ∧ (prepareFunctionInfo functions getFunction).Deadline[i]? = some 0
      ∧ (prepareFunctionInfo functions getFunction).Invocations[i]? = some 0)
    ∧ ∀ j (hj : j < functions.length) f,
        getFunction (functions.get ⟨j, hj⟩) = some f →
        (prepareFunctionInfo functions getFunction).MemoryMB[j]?
            = some (ratTrunc f.MemoryMB)
        ∧ (prepareFunctionInfo functions getFunction).Workload[j]?
            = some (ratTrunc (f.Workload / 1000000))
        ∧ (prepareFunctionInfo functions getFunction).Deadline[j]?
            = some (ratTrunc f.Deadline)
        ∧ (prepareFunctionInfo functions getFunction).Invocations[j]?
            = some (ratTrunc f.Invocations) := by
  have hentry : functionEntry getFunction (functions.get ⟨i, hi⟩) = (0, 0, 0, 0) := by
    rw [functionEntry, hfail]
  constructor
  · refine ⟨?_, ?_, ?_, ?_⟩
    · show (functions.map (fun n => (functionEntry getFunction n).1))[i]? = some 0
      rw [map_getElem_some functions _ i hi, hentry]
    · show (functions.map (fun n => (functionEntry getFunction n).2.1))[i]? = some 0
      rw [map_getElem_some functions _ i hi, hentry]
    · show (functions.map (fun n => (functionEntry getFunction n).2.2.1))[i]? = some 0
      rw [map_getElem_some functions _ i hi, hentry]
    · show (functions.map (fun n => (functionEntry getFunction n).2.2.2))[i]? = some 0
      rw [map_getElem_some functions _ i hi, hentry]
  · intro j hj f hf
    have hentry2 : functionEntry getFunction (functions.get ⟨j, hj⟩)
        = (ratTrunc f.MemoryMB, ratTrunc (f.Workload / 1000000),
           ratTrunc f.Deadline, ratTrunc f.Invocations) := by
      rw [functionEntry, hf]
    refine ⟨?_, ?_, ?_, ?_⟩
    · show (functions.map (fun n => (functionEntry getFunction n).1))[j]?
        = some (ratTrunc f.MemoryMB)
      rw [map_getElem_some functions _ j hj, hentry2]
    · show (functions.map (fun n => (functionEntry getFunction n).2.1))[j]?
        = some (ratTrunc (f.Workload / 1000000))
      rw [map_getElem_some functions _ j hj, hentry2]
    · show (functions.map (fun n => (functionEntry getFunction n).2.2.1))[j]?
        = some (ratTrunc f.Deadline)
      rw [map_getElem_some functions _ j hj, hentry2]
    · show (functions.map (fun n => (functionEntry getFunction n).2.2.2))[j]?
        = some (ratTrunc f.Invocations)
      rw [map_getElem_some functions _ j hj, hentry2]

/-- Witness for C8 with two functions: `a`, whose lookup fails, stays
zero-valued, while `b` keeps its converted metadata. -/
theorem function_lookup_soft_fail_witness :
    ((prepareFunctionInfo ["a", "b"]
        (fun n => if n = "b" then some ⟨64, 2000000, 3, 4, 0⟩ else none)).MemoryMB[0]?
        = some 0)
    ∧ ((prepareFunctionInfo ["a", "b"]
        (fun n => if n = "b" then some ⟨64, 2000000, 3, 4, 0⟩ else none)).Workload[1]?
        = some (ratTrunc ((2000000 : ℚ) / 1000000))) := by
  have h := function_lookup_soft_fail ["a", "b"]
    (fun n => if n = "b" then some ⟨64, 2000000, 3, 4, 0⟩ else none) 0
    (by decide) (by decide)
  exact ⟨h.1.1, (h.2 1 (by decide) ⟨64, 2000000, 3, 4, 0⟩ (by decide)).2.1⟩

lemma isOk_iff {α : Type} (o : GoOutcome α) : o.isOk = true ↔ ∃ a, o = .ok a := by
  cases o <;> simp [GoOutcome.isOk]

/-- The conditions under which iteration `i` of the planning loop for
function `name` runs through to a successful save. -/
def stepOK (results : SolverResults) (nodeIp : List String)
    (G : String → Option FunctionMeta) (S : String → Bool) (i : Nat)
    (name : String) : Prop :=
  (buildInstancesMap nodeIp i results.NodesInstances []).isOk = true
  ∧ i < results.FunctionsCapacity.length
  ∧ (G name).isSome = true
  ∧ S name = false

/-- Whatever the loop does, the persisted store changes only at the names of
the functions it is given. -/
lemma processFunctions_persisted_frozen (results : SolverResults) (nodeIp : List String)
    (G : String → Option FunctionMeta) (S : String → Bool) (maxCap : ℚ) :
    ∀ (fns : List String) (i : Nat) (alloc : FunctionsAllocation)
      (persisted : List (String × FunctionMeta)) (k : String), k ∉ fns →
      mapLookup (processFunctions results nodeIp G S maxCap i fns alloc persisted).2 k
        = mapLookup persisted k := by
  intro fns
  induction fns with
  | nil => intro i alloc persisted k _; rfl
  | cons name rest ih =>
    intro i alloc persisted k hk
    have hk1 : k ≠ name := fun h => hk (by simp [h])
    have hk2 : k ∉ rest := fun h => hk (by simp [h])
    cases hb : buildInstancesMap nodeIp i results.NodesInstances [] with
    | panic m => simp [processFunctions, hb]
    | err m => simp [processFunctions, hb]
    | ok instMap =>
      by_cases hcap : i < results.FunctionsCapacity.length
      · cases hg : G name with
        | none => simp [processFunctions, hb, hcap, hg]
        | some f =>
          by_cases hs : S name = true
          · simp [processFunctions, hb, hcap, hg, hs]
          · simp only [processFunctions, hb, hcap, dif_pos, hg,
              Bool.not_eq_true] at hs ⊢
            rw [hs]
            simp only [Bool.false_eq_true, if_false]
            rw [ih (i + 1) _ _ k hk2]
            exact mapLookup_upsert_ne _ _ _ _ hk1
      · simp [processFunctions, hb, hcap]

/-- On a run that ends in a plan, the plan changes only at the names of the
functions the loop is given. -/
lemma processFunctions_plan_frozen (results : SolverResults) (nodeIp : List String)
    (G : String → Option FunctionMeta) (S : String → Bool) (maxCap : ℚ) :
    ∀ (fns : List String) (i : Nat) (alloc : FunctionsAllocation)
      (persisted : List (String × FunctionMeta)) (a : FunctionsAllocation)
      (st : List (String × FunctionMeta)),
      processFunctions results nodeIp G S maxCap i fns alloc persisted = (.ok a, st) →
      ∀ k, k ∉ fns → mapLookup a k = mapLookup alloc k := by
  intro fns
  induction fns with
  | nil =>
    intro i alloc persisted a st h k _
    have h1 : (GoOutcome.ok alloc : GoOutcome FunctionsAllocation) = .ok a := by
      exact congrArg Prod.fst h
    injection h1 with h1
    rw [← h1]
  | cons name rest ih =>
    intro i alloc persisted a st h k hk
    have hk1 : k ≠ name := fun hx => hk (by simp [hx])
    have hk2 : k ∉ rest := fun hx => hk (by simp [hx])
    cases hb : buildInstancesMap nodeIp i results.NodesInstances [] with
    | panic m => rw [processFunctions, hb] at h; exact absurd (congrArg Prod.fst h) (by simp)
    | err m => rw [processFunctions, hb] at h; exact absurd (congrArg Prod.fst h) (by simp)
    | ok instMap =>
      by_cases hcap : i < results.FunctionsCapacity.length
      · cases hg : G name with
        | none =>
          rw [processFunctions, hb] at h
          simp only [dif_pos hcap, hg] at h
          exact absurd (congrArg Prod.fst h) (by simp)
        | some f =>
          by_cases hs : S name = true
          · rw [processFunctions, hb] at h
            simp only [dif_pos hcap, hg, hs, if_true] at h
            exact absurd (congrArg Prod.fst h) (by simp)
          · rw [processFunctions, hb] at h
            simp only [dif_pos hcap, hg, Bool.not_eq_true] at hs h
            rw [hs] at h
            simp only [Bool.false_eq_true, if_false] at h
            rw [ih _ _ _ _ _ h k hk2]
            exact mapLookup_upsert_ne _ _ _ _ hk1
      · rw [processFunctions, hb] at h
        simp only [dif_neg hcap] at h
        exact absurd (congrArg Prod.fst h) (by simp)

/-- When every iteration can run through to a successful save, the loop
produces a plan. -/
lemma processFunctions_ok_of_stepOK (results : SolverResults) (nodeIp : List String)
    (G : String → Option FunctionMeta) (S : String → Bool) (maxCap : ℚ) :
    ∀ (fns : List String) (i : Nat) (alloc : FunctionsAllocation)
      (persisted : List (String × FunctionMeta)),
      (∀ j (hj : j < fns.length), stepOK results nodeIp G S (i + j) (fns.get ⟨j, hj⟩)) →
      (processFunctions results nodeIp G S maxCap i fns alloc persisted).1.isOk = true := by
  intro fns
  induction fns with
  | nil => intro i alloc persisted _; rfl
  | cons name rest ih =>
    intro i alloc persisted hstep
    have h0 : stepOK results nodeIp G S i name := by
      have := hstep 0 (by simp)
      simpa using this
    obtain ⟨hbuild, hcap, hfound, hsave⟩ := h0
    obtain ⟨instMap, hb⟩ := (isOk_iff _).mp hbuild
    obtain ⟨f, hg⟩ := Option.isSome_iff_exists.mp hfound
    rw [processFunctions, hb]
    simp only [dif_pos hcap, hg, hsave, Bool.false_eq_true, if_false]
    apply ih
    intro j hj
    have := hstep (j + 1) (by simpa using hj)
    rwa [show i + (j + 1) = i + 1 + j by omega] at this

/-- On a successful run, the record persisted for the function at offset `j`
is its registry record with the derived CPU demand for index `i + j`. -/
lemma processFunctions_persists_cpu (results : SolverResults) (nodeIp : List String)
    (G : String → Option FunctionMeta) (S : String → Bool) (maxCap : ℚ) :
    ∀ (fns : List String) (i : Nat) (alloc : FunctionsAllocation)
      (persisted : List (String × FunctionMeta)),
      fns.Nodup →
      ∀ (j : Nat) (hj : j < fns.length) (f : FunctionMeta),
        G (fns.get ⟨j, hj⟩) = some f →
        ∀ hcap : i + j < results.FunctionsCapacity.length,
        (processFunctions results nodeIp G S maxCap i fns alloc persisted).1.isOk = true →
        mapLookup (processFunctions results nodeIp G S maxCap i fns alloc persisted).2
            (fns.get ⟨j, hj⟩)
          = some { f with CPUDemand := round2 (results.FunctionsCapacity.get ⟨i + j, hcap⟩ / maxCap) } := by
  intro fns
  induction fns with
  | nil => intro i alloc persisted _ j hj; exact absurd hj (by simp)
  | cons name rest ih =>
    intro i alloc persisted hnd j hj f hf hcap hok
    cases hb : buildInstancesMap nodeIp i results.NodesInstances [] with
    | panic m =>
      rw [processFunctions, hb] at hok
      exact absurd hok (by simp [GoOutcome.isOk])
    | err m =>
      rw [processFunctions, hb] at hok
      exact absurd hok (by simp [GoOutcome.isOk])
    | ok instMap =>
      by_cases hcapi : i < results.FunctionsCapacity.length
      · cases hg : G name with
        | none =>
          rw [processFunctions, hb] at hok
          simp only [dif_pos hcapi, hg] at hok
          exact absurd hok (by simp [GoOutcome.isOk])
        | some f0 =>
          by_cases hs : S name = true
          · rw [processFunctions, hb] at hok
            simp only [dif_pos hcapi, hg, hs, if_true] at hok
            exact absurd hok (by simp [GoOutcome.isOk])
          · rw [Bool.not_eq_true] at hs
            rw [processFunctions, hb] at hok ⊢
            simp only [dif_pos hcapi, hg, hs, Bool.false_eq_true, if_false] at hok ⊢
            rcases j with _ | j1
            · have hname : (name :: rest).get ⟨0, hj⟩ = name := rfl
              rw [hname] at hf ⊢
              rw [hg] at hf
              injection hf with hf
              subst hf
              have hnotin : name ∉ rest := (List.nodup_cons.mp hnd).1
              rw [processFunctions_persisted_frozen results nodeIp G S maxCap rest
                (i + 1) _ _ name hnotin]
              rw [mapLookup_upsert_self]
              have hidx : (⟨i + 0, hcap⟩ : Fin results.FunctionsCapacity.length)
                  = ⟨i, hcapi⟩ := Fin.ext (Nat.add_zero i)
              rw [round2, hidx]
            · have hname : (name :: rest).get ⟨j1 + 1, hj⟩
                  = rest.get ⟨j1, by simpa using hj⟩ := rfl
              rw [hname] at hf ⊢
              have hcap1 : i + 1 + j1 < results.FunctionsCapacity.length := by omega
              have hmain := ih (i + 1) (mapUpsert alloc name
                  ⟨results.FunctionsCapacity.get ⟨i, hcapi⟩, instMap⟩)
                (mapUpsert persisted name
                  { f0 with CPUDemand :=
                      (goRound (results.FunctionsCapacity.get ⟨i, hcapi⟩ / maxCap * 100) : ℚ)
                        / 100 })
                (List.nodup_cons.mp hnd).2 j1 (by simpa using hj) f hf hcap1 hok
              have hidx : (⟨i + 1 + j1, hcap1⟩ : Fin results.FunctionsCapacity.length)
                  = ⟨i + (j1 + 1), hcap⟩ := by
                apply Fin.ext
                show i + 1 + j1 = i + (j1 + 1)
                omega
              rw [hidx] at hmain
              exact hmain
      · rw [processFunctions, hb] at hok
        simp only [dif_neg hcapi] at hok
        exact absurd hok (by simp [GoOutcome.isOk])

/-- C4: whenever a planning run succeeds, the record persisted for the
function at index `i` equals its registry record with `CPUDemand` set to
`FunctionsCapacity[i] / MaximumCapacity` rounded to 2 decimal places. -/
theorem cpu_demand_persisted (results : SolverResults) (functions : List String)
    (nodeIp : List String) (G : String → Option FunctionMeta) (S : String → Bool)
    (maxCap : ℚ) (persisted0 : List (String × FunctionMeta))
    (hnd : functions.Nodup) (i : Nat) (hi : i < functions.length) (f : FunctionMeta)
    (hf : G (functions.get ⟨i, hi⟩) = some f)
    (hcap : i < results.FunctionsCapacity.length)
    (hok : (computeFunctionsAllocation results functions nodeIp G S maxCap
        persisted0).1.isOk = true) :
    mapLookup (computeFunctionsAllocation results functions nodeIp G S maxCap
        persisted0).2 (functions.get ⟨i, hi⟩)
      = some { f with CPUDemand := round2 (results.FunctionsCapacity.get ⟨i, hcap⟩ / maxCap) } := by
  have h01 : 0 + i < results.FunctionsCapacity.length := by simpa using hcap
  have hmain := processFunctions_persists_cpu results nodeIp G S maxCap functions 0 []
    persisted0 hnd i hi f hf h01 hok
  have heq : results.FunctionsCapacity.get ⟨0 + i, h01⟩
      = results.FunctionsCapacity.get ⟨i, hcap⟩ := by
    congr 1
    exact Fin.ext (Nat.zero_add i)
  rw [heq] at hmain
  exact hmain

lemma round2_at_150_200 : round2 ((150 : ℚ) / 200) = 3 / 4 := by
  have h1 : ((150 : ℚ) / 200) * 100 = 75 := by norm_num
  rw [round2, h1]
  have h2 : goRound 75 = 75 := by decide
  rw [h2]
  norm_num

/-- Witness for C4: `FunctionsCapacity[0] = 150` with local
`MaximumCapacity = 200` persists `CPUDemand = 0.75`. -/
theorem cpu_demand_persisted_witness :
    mapLookup (computeFunctionsAllocation
        ⟨0, "OPTIMAL", 0, [], [150], [(0, [GoValue.num 3])]⟩
        ["f"] ["10.0.0.1"] (fun _ => some ⟨128, 0, 0, 0, 0⟩) (fun _ => false)
        200 []).2 "f"
      = some ⟨128, 0, 0, 0, 3 / 4⟩ := by
  have h : mapLookup (computeFunctionsAllocation
        ⟨0, "OPTIMAL", 0, [], [150], [(0, [GoValue.num 3])]⟩
        ["f"] ["10.0.0.1"] (fun _ => some ⟨128, 0, 0, 0, 0⟩) (fun _ => false)
        200 []).2 "f"
      = some (⟨128, 0, 0, 0, round2 ((150 : ℚ) / 200)⟩ : FunctionMeta) :=
    cpu_demand_persisted ⟨0, "OPTIMAL", 0, [], [150], [(0, [GoValue.num 3])]⟩
      ["f"] ["10.0.0.1"] (fun _ => some ⟨128, 0, 0, 0, 0⟩) (fun _ => false) 200 []
      (by decide) 0 (by decide) ⟨128, 0, 0, 0, 0⟩ rfl (by decide) (by decide)
  rw [h, round2_at_150_200]

instance (results : SolverResults) (nodeIp : List String)
    (G : String → Option FunctionMeta) (S : String → Bool) (i : Nat) (name : String) :
    Decidable (stepOK results nodeIp G S i name) := by
  unfold stepOK; infer_instance

/-- When every iteration before offset `j` saves successfully and iteration
`j` reaches its save and fails there, the run returns the save error and the
earlier functions remain persisted with their new CPU demand. -/
lemma processFunctions_err_at_save (results : SolverResults) (nodeIp : List String)
    (G : String → Option FunctionMeta) (S : String → Bool) (maxCap : ℚ) :
    ∀ (fns : List String) (i : Nat) (alloc : FunctionsAllocation)
      (persisted : List (String × FunctionMeta)),
      fns.Nodup →
      ∀ (j : Nat) (hj : j < fns.length),
      (∀ m (hm : m < j), stepOK results nodeIp G S (i + m) (fns.get ⟨m, lt_trans hm hj⟩)) →
      (buildInstancesMap nodeIp (i + j) results.NodesInstances []).isOk = true →
      i + j < results.FunctionsCapacity.length →
      (G (fns.get ⟨j, hj⟩)).isSome = true →
      S (fns.get ⟨j, hj⟩) = true →
      (processFunctions results nodeIp G S maxCap i fns alloc persisted).1
          = .err "SaveToEtcd failed"
      ∧ ∀ m (hm : m < j) (f : FunctionMeta),
          G (fns.get ⟨m, lt_trans hm hj⟩) = some f →
          ∀ hcapm : i + m < results.FunctionsCapacity.length,
          mapLookup (processFunctions results nodeIp G S maxCap i fns alloc persisted).2
              (fns.get ⟨m, lt_trans hm hj⟩)
            = some { f with CPUDemand := round2 (results.FunctionsCapacity.get ⟨i + m, hcapm⟩ / maxCap) } := by
  intro fns
  induction fns with
  | nil => intro i alloc persisted _ j hj; exact absurd hj (by simp)
  | cons name rest ih =>
    intro i alloc persisted hnd j hj hpre hbuildj hcapj hfoundj hsavej
    rcases j with _ | j1
    · have hname : (name :: rest).get ⟨0, hj⟩ = name := rfl
      rw [hname] at hfoundj hsavej
      rw [Nat.add_zero] at hbuildj hcapj
      obtain ⟨instMap, hb⟩ := (isOk_iff _).mp hbuildj
      obtain ⟨f0, hg⟩ := Option.isSome_iff_exists.mp hfoundj
      rw [processFunctions, hb]
      simp only [dif_pos hcapj, hg, hsavej, if_true]
      exact ⟨trivial, fun m hm => absurd hm (by omega)⟩
    · have h0 : stepOK results nodeIp G S i name := by
        have := hpre 0 (by omega)
        simpa using this
      obtain ⟨hbuild0, hcap0, hfound0, hsave0⟩ := h0
      obtain ⟨instMap, hb⟩ := (isOk_iff _).mp hbuild0
      obtain ⟨f0, hg⟩ := Option.isSome_iff_exists.mp hfound0
      have hj1 : j1 < rest.length := by simpa using hj
      have hpre1 : ∀ m (hm : m < j1),
          stepOK results nodeIp G S (i + 1 + m) (rest.get ⟨m, lt_trans hm hj1⟩) := by
        intro m hm
        have := hpre (m + 1) (by omega)
        rw [show i + (m + 1) = i + 1 + m by omega] at this
        exact this
      have hbuild1 : (buildInstancesMap nodeIp (i + 1 + j1) results.NodesInstances []).isOk
          = true := by
        rw [show i + 1 + j1 = i + (j1 + 1) by omega]
        exact hbuildj
      have hcap1 : i + 1 + j1 < results.FunctionsCapacity.length := by omega
      have hfound1 : (G (rest.get ⟨j1, hj1⟩)).isSome = true := hfoundj
      have hsave1 : S (rest.get ⟨j1, hj1⟩) = true := hsavej
      have hrec := ih (i + 1)
        (mapUpsert alloc name ⟨results.FunctionsCapacity.get ⟨i, hcap0⟩, instMap⟩)
        (mapUpsert persisted name
          { f0 with CPUDemand := (goRound (results.FunctionsCapacity.get ⟨i, hcap0⟩ / maxCap * 100) : ℚ) / 100 })
        (List.nodup_cons.mp hnd).2 j1 hj1 hpre1 hbuild1 hcap1 hfound1 hsave1
      rw [processFunctions, hb]
      simp only [dif_pos hcap0, hg, hsave0, Bool.false_eq_true, if_false]
      refine ⟨hrec.1, ?_⟩
      intro m hm f hf hcapm
      rcases m with _ | m1
      · have hname : (name :: rest).get ⟨0, lt_trans hm hj⟩ = name := rfl
        rw [hname] at hf ⊢
        rw [hg] at hf
        injection hf with hf
        subst hf
        have hnotin : name ∉ rest := (List.nodup_cons.mp hnd).1
        rw [processFunctions_persisted_frozen results nodeIp G S maxCap rest
          (i + 1) _ _ name hnotin]
        rw [mapLookup_upsert_self]
        have hidx : (⟨i + 0, hcapm⟩ : Fin results.FunctionsCapacity.length)
            = ⟨i, hcap0⟩ := Fin.ext (Nat.add_zero i)
        rw [round2, hidx]
      · have hm1 : m1 < j1 := by omega
        have hname : (name :: rest).get ⟨m1 + 1, lt_trans hm hj⟩
            = rest.get ⟨m1, lt_trans hm1 hj1⟩ := rfl
        rw [hname] at hf ⊢
        have hcapm1 : i + 1 + m1 < results.FunctionsCapacity.length := by omega
        have hmain := hrec.2 m1 hm1 f hf hcapm1
        have hidx : (⟨i + 1 + m1, hcapm1⟩ : Fin results.FunctionsCapacity.length)
            = ⟨i + (m1 + 1), hcapm⟩ := by
          apply Fin.ext
          show i + 1 + m1 = i + (m1 + 1)
          omega
        rw [hidx] at hmain
        exact hmain

/-- C6: planning is a non-atomic batch: when persisting the updated record
first fails at function index `j`, the call returns an error and produces no
plan, but every function at an index before `j` remains persisted with its
new CPU-demand value. -/
theorem planning_nonatomic_partial_persist (results : SolverResults)
    (functions : List String) (nodeIp : List String)
    (G : String → Option FunctionMeta) (S : String → Bool) (maxCap : ℚ)
    (persisted0 : List (String × FunctionMeta))
    (hnd : functions.Nodup) (j : Nat) (hj : j < functions.length)
    (hpre : ∀ m (hm : m < j), stepOK results nodeIp G S m (functions.get ⟨m, lt_trans hm hj⟩))
    (hbuild : (buildInstancesMap nodeIp j results.NodesInstances []).isOk = true)
    (hcapj : j < results.FunctionsCapacity.length)
    (hfound : (G (functions.get ⟨j, hj⟩)).isSome = true)
    (hsave : S (functions.get ⟨j, hj⟩) = true) :
    (computeFunctionsAllocation results functions nodeIp G S maxCap persisted0).1
        = .err "SaveToEtcd failed"
    ∧ ∀ m (hm : m < j) (f : FunctionMeta),
        G (functions.get ⟨m, lt_trans hm hj⟩) = some f →
        ∀ hcapm : m < results.FunctionsCapacity.length,
        mapLookup (computeFunctionsAllocation results functions nodeIp G S maxCap
            persisted0).2 (functions.get ⟨m, lt_trans hm hj⟩)
          = some { f with CPUDemand := round2 (results.FunctionsCapacity.get ⟨m, hcapm⟩ / maxCap) } := by
  have hpre0 : ∀ m (hm : m < j),
      stepOK results nodeIp G S (0 + m) (functions.get ⟨m, lt_trans hm hj⟩) := by
    intro m hm
    rw [Nat.zero_add]
    exact hpre m hm
  have hbuild0 : (buildInstancesMap nodeIp (0 + j) results.NodesInstances []).isOk
      = true := by rw [Nat.zero_add]; exact hbuild
  have hcap0 : 0 + j < results.FunctionsCapacity.length := by omega
  have hmain := processFunctions_err_at_save results nodeIp G S maxCap functions 0 []
    persisted0 hnd j hj hpre0 hbuild0 hcap0 hfound hsave
  refine ⟨hmain.1, ?_⟩
  intro m hm f hf hcapm
  have hcapm0 : 0 + m < results.FunctionsCapacity.length := by omega
  have h := hmain.2 m hm f hf hcapm0
  have heq : results.FunctionsCapacity.get ⟨0 + m, hcapm0⟩
      = results.FunctionsCapacity.get ⟨m, hcapm⟩ := by
    congr 1
    exact Fin.ext (Nat.zero_add m)
  rw [heq] at h
  exact h

/-- Witness for C6 with two functions: saving `b` (index 1) fails, the call
errors, and `a` (index 0) stays persisted with its new CPU demand. -/
theorem planning_nonatomic_partial_persist_witness :
    (computeFunctionsAllocation ⟨0, "OPTIMAL", 0, [], [100, 160], [(0, [GoValue.num 1, GoValue.num 2])]⟩
        ["a", "b"] ["10.0.0.1"]
        (fun n => if n = "a" then some ⟨1, 0, 0, 0, 0⟩ else some ⟨2, 0, 0, 0, 0⟩)
        (fun n => n = "b") 200 []).1 = .err "SaveToEtcd failed"
    ∧ mapLookup (computeFunctionsAllocation
        ⟨0, "OPTIMAL", 0, [], [100, 160], [(0, [GoValue.num 1, GoValue.num 2])]⟩
        ["a", "b"] ["10.0.0.1"]
        (fun n => if n = "a" then some ⟨1, 0, 0, 0, 0⟩ else some ⟨2, 0, 0, 0, 0⟩)
        (fun n => n = "b") 200 []).2 "a"
      = some (⟨1, 0, 0, 0, round2 ((100 : ℚ) / 200)⟩ : FunctionMeta) := by
  have h := planning_nonatomic_partial_persist
    ⟨0, "OPTIMAL", 0, [], [100, 160], [(0, [GoValue.num 1, GoValue.num 2])]⟩
    ["a", "b"] ["10.0.0.1"]
    (fun n => if n = "a" then some ⟨1, 0, 0, 0, 0⟩ else some ⟨2, 0, 0, 0, 0⟩)
    (fun n => n = "b") 200 [] (by decide) 1 (by decide)
    (fun m hm => by
      have hm0 : m = 0 := by omega
      subst hm0
      have hstep : stepOK
          ⟨0, "OPTIMAL", 0, [], [100, 160], [(0, [GoValue.num 1, GoValue.num 2])]⟩
          ["10.0.0.1"]
          (fun n => if n = "a" then some ⟨1, 0, 0, 0, 0⟩ else some ⟨2, 0, 0, 0, 0⟩)
          (fun n => n = "b") 0 "a" := by decide
      exact hstep)
    (by decide) (by decide) (by decide) (by decide)
  refine ⟨h.1, ?_⟩
  have h2 := h.2 0 (by decide) ⟨1, 0, 0, 0, 0⟩ rfl (by decide)
  exact h2

lemma ratTrunc_nonneg {q : ℚ} (h : 0 ≤ q) : 0 ≤ ratTrunc q :=
  Int.tdiv_nonneg (Rat.num_nonneg.mpr h) (Int.natCast_nonneg _)

lemma buildInstancesMap_append (nodeIp : List String) (i : Nat) :
    ∀ (L₁ L₂ : List (Int × List GoValue)) (acc : List (String × Int)),
      buildInstancesMap nodeIp i (L₁ ++ L₂) acc
        = match buildInstancesMap nodeIp i L₁ acc with
          | .ok m => buildInstancesMap nodeIp i L₂ m
          | .err e => .err e
          | .panic e => .panic e := by
  intro L₁
  induction L₁ with
  | nil => intro L₂ acc; rfl
  | cons p rest ih =>
    intro L₂ acc
    obtain ⟨key, instances⟩ := p
    by_cases hlen : i < instances.length
    · simp only [List.cons_append, buildInstancesMap, dif_pos hlen]
      cases hv : instances.get ⟨i, hlen⟩ with
      | num q =>
        by_cases hk : 0 ≤ key ∧ key.toNat < nodeIp.length
        · simp only [dif_pos hk]
          exact ih L₂ _
        · simp only [dif_neg hk]
      | other t => exact ih L₂ acc
    · simp only [List.cons_append, buildInstancesMap, dif_neg hlen]

lemma buildInstancesMap_no_write (nodeIp : List String) (i : Nat) (s : String) :
    ∀ (L : List (Int × List GoValue)) (acc m : List (String × Int)),
      (∀ p ∈ L, ∀ hk : p.1.toNat < nodeIp.length, nodeIp.get ⟨p.1.toNat, hk⟩ ≠ s) →
      buildInstancesMap nodeIp i L acc = .ok m → mapLookup m s = mapLookup acc s := by
  intro L
  induction L with
  | nil =>
    intro acc m _ h
    injection h with h
    rw [← h]
  | cons p rest ih =>
    intro acc m hnw h
    obtain ⟨key, instances⟩ := p
    rw [buildInstancesMap] at h
    by_cases hlen : i < instances.length
    · rw [dif_pos hlen] at h
      cases hv : instances.get ⟨i, hlen⟩ with
      | num q =>
        simp only [hv] at h
        by_cases hk : 0 ≤ key ∧ key.toNat < nodeIp.length
        · rw [dif_pos hk] at h
          have hres := ih _ _ (fun p hp hk2 => hnw p (by simp [hp]) hk2) h
          rw [hres]
          exact mapLookup_upsert_ne _ _ _ _
            (fun heq => hnw (key, instances) (by simp) hk.2 heq.symm)
        · rw [dif_neg hk] at h
          exact absurd h (by simp)
      | other t =>
        simp only [hv] at h
        exact ih _ _ (fun p hp hk2 => hnw p (by simp [hp]) hk2) h
    · rw [dif_neg hlen] at h
      exact absurd h (by simp)

lemma buildInstancesMap_target_write (nodeIp : List String) (i : Nat)
    (L₁ L₂ : List (Int × List GoValue)) (key : Int) (instances : List GoValue)
    (q : ℚ) (acc m : List (String × Int))
    (hlen : i < instances.length) (hv : instances.get ⟨i, hlen⟩ = .num q)
    (hk0 : 0 ≤ key) (hk : key.toNat < nodeIp.length)
    (hnw : ∀ p ∈ L₂, ∀ hp : p.1.toNat < nodeIp.length,
        nodeIp.get ⟨p.1.toNat, hp⟩ ≠ nodeIp.get ⟨key.toNat, hk⟩)
    (hrun : buildInstancesMap nodeIp i (L₁ ++ (key, instances) :: L₂) acc = .ok m) :
    mapLookup m (nodeIp.get ⟨key.toNat, hk⟩) = some (ratTrunc q) := by
  rw [buildInstancesMap_append] at hrun
  cases h1 : buildInstancesMap nodeIp i L₁ acc with
  | ok m1 =>
    simp only [h1] at hrun
    rw [buildInstancesMap] at hrun
    simp only [dif_pos hlen, hv, dif_pos (And.intro hk0 hk)] at hrun
    have hres := buildInstancesMap_no_write nodeIp i _ L₂ _ m hnw hrun
    rw [hres]
    exact mapLookup_upsert_self _ _ _
  | err e => simp only [h1] at hrun; exact absurd hrun (by simp)
  | panic e => simp only [h1] at hrun; exact absurd hrun (by simp)

lemma buildInstancesMap_skip_absent (nodeIp : List String) (i : Nat)
    (L₁ L₂ : List (Int × List GoValue)) (key : Int) (instances : List GoValue)
    (t : String) (m : List (String × Int))
    (hlen : i < instances.length) (hv : instances.get ⟨i, hlen⟩ = .other t)
    (hk : key.toNat < nodeIp.length)
    (hnw : ∀ p ∈ L₁ ++ L₂, ∀ hp : p.1.toNat < nodeIp.length,
        nodeIp.get ⟨p.1.toNat, hp⟩ ≠ nodeIp.get ⟨key.toNat, hk⟩)
    (hrun : buildInstancesMap nodeIp i (L₁ ++ (key, instances) :: L₂) [] = .ok m) :
    mapLookup m (nodeIp.get ⟨key.toNat, hk⟩) = none := by
  rw [buildInstancesMap_append] at hrun
  cases h1 : buildInstancesMap nodeIp i L₁ [] with
  | ok m1 =>
    simp only [h1] at hrun
    rw [buildInstancesMap] at hrun
    simp only [dif_pos hlen, hv] at hrun
    have hres := buildInstancesMap_no_write nodeIp i _ L₂ _ m
      (fun p hp hk2 => hnw p (by simp [hp]) hk2) hrun
    rw [hres]
    have hres1 := buildInstancesMap_no_write nodeIp i _ L₁ _ m1
      (fun p hp hk2 => hnw p (by simp [hp]) hk2) h1
    rw [hres1]
    rfl
  | err e => simp only [h1] at hrun; exact absurd hrun (by simp)
  | panic e => simp only [h1] at hrun; exact absurd hrun (by simp)

lemma buildInstancesMap_ok_of_bounds (nodeIp : List String) (i : Nat) :
    ∀ (L : List (Int × List GoValue)) (acc : List (String × Int)),
      (∀ p ∈ L, 0 ≤ p.1 ∧ p.1.toNat < nodeIp.length ∧ i < p.2.length) →
      (buildInstancesMap nodeIp i L acc).isOk = true := by
  intro L
  induction L with
  | nil => intro acc _; rfl
  | cons p rest ih =>
    intro acc hb
    obtain ⟨key, instances⟩ := p
    obtain ⟨hk0, hk, hlen⟩ := hb (key, instances) (by simp)
    dsimp only at hk0 hk hlen
    rw [buildInstancesMap]
    simp only [dif_pos hlen]
    cases hv : instances.get ⟨i, hlen⟩ with
    | num q =>
      simp only [dif_pos (And.intro hk0 hk)]
      exact ih _ (fun p hp => hb p (by simp [hp]))
    | other t => exact ih _ (fun p hp => hb p (by simp [hp]))

lemma buildInstancesMap_values_nonneg (nodeIp : List String) (i : Nat) :
    ∀ (L : List (Int × List GoValue)) (acc m : List (String × Int)),
      (∀ p ∈ L, ∀ g ∈ p.2, ∀ q : ℚ, g = .num q → 0 ≤ q) →
      (∀ e ∈ acc, 0 ≤ e.2) →
      buildInstancesMap nodeIp i L acc = .ok m → ∀ e ∈ m, 0 ≤ e.2 := by
  intro L
  induction L with
  | nil =>
    intro acc m _ hacc h
    injection h with h
    rw [← h]
    exact hacc
  | cons p rest ih =>
    intro acc m hnn hacc h
    obtain ⟨key, instances⟩ := p
    rw [buildInstancesMap] at h
    by_cases hlen : i < instances.length
    · rw [dif_pos hlen] at h
      cases hv : instances.get ⟨i, hlen⟩ with
      | num q =>
        simp only [hv] at h
        by_cases hk : 0 ≤ key ∧ key.toNat < nodeIp.length
        · rw [dif_pos hk] at h
          have hq : 0 ≤ q :=
            hnn (key, instances) (by simp) (instances.get ⟨i, hlen⟩)
              (List.get_mem instances i hlen) q hv
          refine ih _ _ (fun p hp => hnn p (by simp [hp])) ?_ h
          intro e he
          rcases mem_mapUpsert _ _ e _ he with he | he
          · rw [he]
            exact ratTrunc_nonneg hq
          · exact hacc e he
        · rw [dif_neg hk] at h
          exact absurd h (by simp)
      | other t =>
        simp only [hv] at h
        exact ih _ _ (fun p hp => hnn p (by simp [hp])) hacc h
    · rw [dif_neg hlen] at h
      exact absurd h (by simp)

/-- On a run that ends in a plan, the plan entry for the function at offset
`j` holds `FunctionsCapacity[i+j]` and the instance map built for index
`i+j`. -/
lemma processFunctions_plan_entry (results : SolverResults) (nodeIp : List String)
    (G : String → Option FunctionMeta) (S : String → Bool) (maxCap : ℚ) :
    ∀ (fns : List String) (i : Nat) (alloc : FunctionsAllocation)
      (persisted : List (String × FunctionMeta)) (a : FunctionsAllocation)
      (st : List (String × FunctionMeta)),
      fns.Nodup →
      processFunctions results nodeIp G S maxCap i fns alloc persisted = (.ok a, st) →
      ∀ (j : Nat) (hj : j < fns.length) (m : List (String × Int)),
        buildInstancesMap nodeIp (i + j) results.NodesInstances [] = .ok m →
        ∀ hcap : i + j < results.FunctionsCapacity.length,
        mapLookup a (fns.get ⟨j, hj⟩)
          = some ⟨results.FunctionsCapacity.get ⟨i + j, hcap⟩, m⟩ := by
  intro fns
  induction fns with
  | nil => intro i alloc persisted a st _ _ j hj; exact absurd hj (by simp)
  | cons name rest ih =>
    intro i alloc persisted a st hnd hrun j hj m hbuild hcap
    cases hb : buildInstancesMap nodeIp i results.NodesInstances [] with
    | panic e =>
      rw [processFunctions, hb] at hrun
      exact absurd (congrArg Prod.fst hrun) (by simp)
    | err e =>
      rw [processFunctions, hb] at hrun
      exact absurd (congrArg Prod.fst hrun) (by simp)
    | ok instMap =>
      by_cases hcapi : i < results.FunctionsCapacity.length
      · cases hg : G name with
        | none =>
          rw [processFunctions, hb] at hrun
          simp only [dif_pos hcapi, hg] at hrun
          exact absurd (congrArg Prod.fst hrun) (by simp)
        | some f0 =>
          by_cases hs : S name = true
          · rw [processFunctions, hb] at hrun
            simp only [dif_pos hcapi, hg, hs, if_true] at hrun
            exact absurd (congrArg Prod.fst hrun) (by simp)
          · rw [Bool.not_eq_true] at hs
            rw [processFunctions, hb] at hrun
            simp only [dif_pos hcapi, hg, hs, Bool.false_eq_true, if_false] at hrun
            rcases j with _ | j1
            · have hname : (name :: rest).get ⟨0, hj⟩ = name := rfl
              rw [hname]
              rw [Nat.add_zero] at hbuild
              rw [hbuild] at hb
              injection hb with hb
              subst hb
              have hnotin : name ∉ rest := (List.nodup_cons.mp hnd).1
              rw [processFunctions_plan_frozen results nodeIp G S maxCap rest
                (i + 1) _ _ a st hrun name hnotin]
              rw [mapLookup_upsert_self]
              have hidx : (⟨i + 0, hcap⟩ : Fin results.FunctionsCapacity.length)
                  = ⟨i, hcapi⟩ := Fin.ext (Nat.add_zero i)
              rw [hidx]
            · have hname : (name :: rest).get ⟨j1 + 1, hj⟩
                  = rest.get ⟨j1, by simpa using hj⟩ := rfl
              rw [hname]
              have hb1 : buildInstancesMap nodeIp (i + 1 + j1) results.NodesInstances []
                  = .ok m := by
                rw [show i + 1 + j1 = i + (j1 + 1) by omega]
                exact hbuild
              have hcap1 : i + 1 + j1 < results.FunctionsCapacity.length := by omega
              have hmain := ih (i + 1) _ _ a st (List.nodup_cons.mp hnd).2 hrun j1
                (by simpa using hj) m hb1 hcap1
              have hidx : (⟨i + 1 + j1, hcap1⟩ : Fin results.FunctionsCapacity.length)
                  = ⟨i + (j1 + 1), hcap⟩ := by
                apply Fin.ext
                show i + 1 + j1 = i + (j1 + 1)
                omega
              rw [hidx] at hmain
              exact hmain
      · rw [processFunctions, hb] at hrun
        simp only [dif_neg hcapi] at hrun
        exact absurd (congrArg Prod.fst hrun) (by simp)

/-- On a run that ends in a plan, the per-index instance-map build succeeded
at every offset. -/
lemma processFunctions_ok_build (results : SolverResults) (nodeIp : List String)
    (G : String → Option FunctionMeta) (S : String → Bool) (maxCap : ℚ) :
    ∀ (fns : List String) (i : Nat) (alloc : FunctionsAllocation)
      (persisted : List (String × FunctionMeta)) (a : FunctionsAllocation)
      (st : List (String × FunctionMeta)),
      processFunctions results nodeIp G S maxCap i fns alloc persisted = (.ok a, st) →
      ∀ j, j < fns.length →
        (buildInstancesMap nodeIp (i + j) results.NodesInstances []).isOk = true := by
  intro fns
  induction fns with
  | nil => intro i alloc persisted a st _ j hj; exact absurd hj (by simp)
  | cons name rest ih =>
    intro i alloc persisted a st hrun j hj
    cases hb : buildInstancesMap nodeIp i results.NodesInstances [] with
    | panic e =>
      rw [processFunctions, hb] at hrun
      exact absurd (congrArg Prod.fst hrun) (by simp)
    | err e =>
      rw [processFunctions, hb] at hrun
      exact absurd (congrArg Prod.fst hrun) (by simp)
    | ok instMap =>
      by_cases hcapi : i < results.FunctionsCapacity.length
      · cases hg : G name with
        | none =>
          rw [processFunctions, hb] at hrun
          simp only [dif_pos hcapi, hg] at hrun
          exact absurd (congrArg Prod.fst hrun) (by simp)
        | some f0 =>
          by_cases hs : S name = true
          · rw [processFunctions, hb] at hrun
            simp only [dif_pos hcapi, hg, hs, if_true] at hrun
            exact absurd (congrArg Prod.fst hrun) (by simp)
          · rw [Bool.not_eq_true] at hs
            rw [processFunctions, hb] at hrun
            simp only [dif_pos hcapi, hg, hs, Bool.false_eq_true, if_false] at hrun
            rcases j with _ | j1
            · rw [Nat.add_zero, hb]; rfl
            · have := ih (i + 1) _ _ a st hrun j1 (by simpa using hj)
              rwa [show i + 1 + j1 = i + (j1 + 1) by omega] at this
      · rw [processFunctions, hb] at hrun
        simp only [dif_neg hcapi] at hrun
        exact absurd (congrArg Prod.fst hrun) (by simp)

/-- On a run that ends in a plan, every instance count in the plan is
nonnegative provided every numeric solver entry is. -/
lemma processFunctions_plan_values_nonneg (results : SolverResults)
    (nodeIp : List String) (G : String → Option FunctionMeta) (S : String → Bool)
    (maxCap : ℚ)
    (hnn : ∀ p ∈ results.NodesInstances, ∀ g ∈ p.2, ∀ q : ℚ, g = .num q → 0 ≤ q) :
    ∀ (fns : List String) (i : Nat) (alloc : FunctionsAllocation)
      (persisted : List (String × FunctionMeta)) (a : FunctionsAllocation)
      (st : List (String × FunctionMeta)),
      (∀ p ∈ alloc, ∀ e ∈ p.2.Instances, 0 ≤ e.2) →
      processFunctions results nodeIp G S maxCap i fns alloc persisted = (.ok a, st) →
      ∀ p ∈ a, ∀ e ∈ p.2.Instances, 0 ≤ e.2 := by
  intro fns
  induction fns with
  | nil =>
    intro i alloc persisted a st hacc hrun
    have h1 : (GoOutcome.ok alloc : GoOutcome FunctionsAllocation) = .ok a :=
      congrArg Prod.fst hrun
    injection h1 with h1
    rw [← h1]
    exact hacc
  | cons name rest ih =>
    intro i alloc persisted a st hacc hrun
    cases hb : buildInstancesMap nodeIp i results.NodesInstances [] with
    | panic e =>
      rw [processFunctions, hb] at hrun
      exact absurd (congrArg Prod.fst hrun) (by simp)
    | err e =>
      rw [processFunctions, hb] at hrun
      exact absurd (congrArg Prod.fst hrun) (by simp)
    | ok instMap =>
      by_cases hcapi : i < results.FunctionsCapacity.length
      · cases hg : G name with
        | none =>
          rw [processFunctions, hb] at hrun
          simp only [dif_pos hcapi, hg] at hrun
          exact absurd (congrArg Prod.fst hrun) (by simp)
        | some f0 =>
          by_cases hs : S name = true
          · rw [processFunctions, hb] at hrun
            simp only [dif_pos hcapi, hg, hs, if_true] at hrun
            exact absurd (congrArg Prod.fst hrun) (by simp)
          · rw [Bool.not_eq_true] at hs
            rw [processFunctions, hb] at hrun
            simp only [dif_pos hcapi, hg, hs, Bool.false_eq_true, if_false] at hrun
            refine ih (i + 1) _ _ a st ?_ hrun
            intro p hp e he
            rcases mem_mapUpsert _ _ p _ hp with hp1 | hp1
            · rw [hp1] at he
              exact buildInstancesMap_values_nonneg nodeIp i results.NodesInstances
                [] instMap hnn (by simp) hb e he
            · exact hacc p hp1 e he
      · rw [processFunctions, hb] at hrun
        simp only [dif_neg hcapi] at hrun
        exact absurd (congrArg Prod.fst hrun) (by simp)

/-- C9 (amended): whenever planning produces a plan from a solver result all
of whose numeric `NodesInstances` entries are nonnegative, every instance
count stored in the plan is nonnegative; the code itself never checks the
sign, so a negative solver entry lands in the plan as a negative count. -/
theorem plan_instance_counts_nonneg (results : SolverResults)
    (functions : List String) (nodeIp : List String)
    (G : String → Option FunctionMeta) (S : String → Bool) (maxCap : ℚ)
    (persisted0 : List (String × FunctionMeta)) (a : FunctionsAllocation)
    (st : List (String × FunctionMeta))
    (hnn : ∀ p ∈ results.NodesInstances, ∀ g ∈ p.2, ∀ q : ℚ, g = .num q → 0 ≤ q)
    (hrun : computeFunctionsAllocation results functions nodeIp G S maxCap persisted0
        = (.ok a, st)) :
    ∀ p ∈ a, ∀ e ∈ p.2.Instances, 0 ≤ e.2 :=
  processFunctions_plan_values_nonneg results nodeIp G S maxCap hnn functions 0 []
    persisted0 a st (by simp) hrun

/-- Witness for C9 (amended) on a concrete nonnegative solver result: the
produced plan entry and its one instance count, which is nonnegative. -/
theorem plan_instance_counts_nonneg_witness :
    ("f", (⟨150, [("10.0.0.1", 3)]⟩ : FunctionAllocation))
        ∈ ([("f", ⟨150, [("10.0.0.1", 3)]⟩)] : FunctionsAllocation)
    ∧ ("10.0.0.1", (3 : Int)) ∈ [("10.0.0.1", (3 : Int))]
    ∧ (0 : Int) ≤ (("10.0.0.1", (3 : Int))).2 := by
  refine ⟨by decide, by decide, ?_⟩
  have h := plan_instance_counts_nonneg
      ⟨0, "OPTIMAL", 0, [], [150], [(0, [GoValue.num 3])]⟩
      ["f"] ["10.0.0.1"] (fun _ => some ⟨128, 0, 0, 0, 0⟩) (fun _ => false) 200
      [] [("f", ⟨150, [("10.0.0.1", 3)]⟩)]
      [("f", ⟨128, 0, 0, 0, (goRound ((150 : ℚ) / 200 * 100) : ℚ) / 100⟩)]
      (by
        intro p hp g hg q hq
        simp only [List.mem_singleton] at hp
        subst hp
        simp only [List.mem_singleton] at hg
        subst hg
        injection hq with hq
        subst hq
        norm_num)
      rfl
  exact h ("f", ⟨150, [("10.0.0.1", 3)]⟩) (by decide) ("10.0.0.1", 3) (by decide)

/-- C9 counterexample: the solver result `NodesInstances[0][0] = -1.0`
produces a plan whose stored instance count is `-1`, which is negative — the
claim that every produced plan stores only nonnegative counts is false. -/
theorem plan_instance_counts_negative_cex :
    (computeFunctionsAllocation ⟨0, "OPTIMAL", 0, [], [150], [(0, [GoValue.num (-1)])]⟩
        ["f"] ["10.0.0.1"] (fun _ => some ⟨128, 0, 0, 0, 0⟩) (fun _ => false)
        200 []).1
      = .ok [("f", ⟨150, [("10.0.0.1", -1)]⟩)]
    ∧ (-1 : Int) < 0 := by
  exact ⟨by decide, by decide⟩

/-- The loop cannot hit an out-of-range index when the solver-response shape
matches the snapshot. -/
lemma processFunctions_no_panic (results : SolverResults) (nodeIp : List String)
    (G : String → Option FunctionMeta) (S : String → Bool) (maxCap : ℚ) :
    ∀ (fns : List String) (i : Nat) (alloc : FunctionsAllocation)
      (persisted : List (String × FunctionMeta)),
      i + fns.length ≤ results.FunctionsCapacity.length →
      (∀ p ∈ results.NodesInstances,
        0 ≤ p.1 ∧ p.1.toNat < nodeIp.length ∧ i + fns.length ≤ p.2.length) →
      (processFunctions results nodeIp G S maxCap i fns alloc persisted).1.isPanic
        = false := by
  intro fns
  induction fns with
  | nil => intro i alloc persisted _ _; rfl
  | cons name rest ih =>
    intro i alloc persisted hcap hni
    have hbuild : (buildInstancesMap nodeIp i results.NodesInstances []).isOk = true :=
      buildInstancesMap_ok_of_bounds nodeIp i results.NodesInstances []
        (fun p hp => ⟨(hni p hp).1, (hni p hp).2.1, by
          have := (hni p hp).2.2
          simp only [List.length_cons] at this
          omega⟩)
    obtain ⟨instMap, hb⟩ := (isOk_iff _).mp hbuild
    have hcapi : i < results.FunctionsCapacity.length := by
      simp only [List.length_cons] at hcap
      omega
    rw [processFunctions, hb]
    simp only [dif_pos hcapi]
    cases hg : G name with
    | none => rfl
    | some f0 =>
      by_cases hs : S name = true
      · simp only [hs, if_true]; rfl
      · rw [Bool.not_eq_true] at hs
        simp only [hs, Bool.false_eq_true, if_false]
        refine ih (i + 1) _ _ ?_ ?_
        · simp only [List.length_cons] at hcap
          omega
        · intro p hp
          refine ⟨(hni p hp).1, (hni p hp).2.1, ?_⟩
          have := (hni p hp).2.2
          simp only [List.length_cons] at this
          omega

/-- C10: `computeFunctionsAllocation` indexes `FunctionsCapacity[i]`, each
`NodesInstances` row at `i`, and `nodeIp[key]` without bounds checks. It is
panic-free under the shape precondition (at least as many capacities and
instance-row entries as functions; every node key a valid index into
`nodeIp`); and the shape is never validated against the snapshot: a response
with too few capacities makes the very same code panic. -/
theorem compute_allocation_shape_precondition :
    (∀ (results : SolverResults) (functions : List String) (nodeIp : List String)
       (G : String → Option FunctionMeta) (S : String → Bool) (maxCap : ℚ)
       (persisted0 : List (String × FunctionMeta)),
       functions.length ≤ results.FunctionsCapacity.length →
       (∀ p ∈ results.NodesInstances,
         0 ≤ p.1 ∧ p.1.toNat < nodeIp.length ∧ functions.length ≤ p.2.length) →
       (computeFunctionsAllocation results functions nodeIp G S maxCap
           persisted0).1.isPanic = false)
    ∧ (computeFunctionsAllocation ⟨0, "OPTIMAL", 0, [], [], [(0, [GoValue.num 3])]⟩
        ["f"] ["10.0.0.1"] (fun _ => some ⟨0, 0, 0, 0, 0⟩) (fun _ => false) 1 []).1
        = .panic "index out of range" := by
  constructor
  · intro results functions nodeIp G S maxCap persisted0 hcap hni
    exact processFunctions_no_panic results nodeIp G S maxCap functions 0 [] persisted0
      (by omega)
      (fun p hp => ⟨(hni p hp).1, (hni p hp).2.1, by
        have := (hni p hp).2.2
        omega⟩)
  · decide

/-- Witness for C10: a well-shaped response runs without panic. -/
theorem compute_allocation_shape_precondition_witness :
    (1 : Nat) ≤ 1 ∧
    (computeFunctionsAllocation ⟨0, "OPTIMAL", 0, [], [150], [(0, [GoValue.num 3])]⟩
        ["f"] ["10.0.0.1"] (fun _ => some ⟨0, 0, 0, 0, 0⟩) (fun _ => false)
        1 []).1.isPanic = false := by
  refine ⟨by decide, ?_⟩
  exact compute_allocation_shape_precondition.1
    ⟨0, "OPTIMAL", 0, [], [150], [(0, [GoValue.num 3])]⟩ ["f"] ["10.0.0.1"]
    (fun _ => some ⟨0, 0, 0, 0, 0⟩) (fun _ => false) 1 []
    (by decide)
    (by
      intro p hp
      simp only [List.mem_singleton] at hp
      subst hp
      exact ⟨by decide, by decide, by decide⟩)

/-- C5: (A) a numeric `NodesInstances` entry at `(key, j)` is coerced to an
integer and stored in the plan under that node's IP; (B) a non-numeric entry
at `(key, j)` leaves exactly that (node, function) pair absent from the
plan, does not abort planning, and the solve cycle still completes and
publishes the plan. -/
theorem instance_coercion_and_skip :
    (∀ (results : SolverResults) (functions : List String) (nodeIp : List String)
       (G : String → Option FunctionMeta) (S : String → Bool) (maxCap : ℚ)
       (persisted0 : List (String × FunctionMeta)) (a : FunctionsAllocation)
       (st : List (String × FunctionMeta)) (j : Nat) (hj : j < functions.length)
       (L₁ L₂ : List (Int × List GoValue)) (key : Int) (instances : List GoValue)
       (q : ℚ),
       functions.Nodup →
       computeFunctionsAllocation results functions nodeIp G S maxCap persisted0
           = (.ok a, st) →
       results.NodesInstances = L₁ ++ (key, instances) :: L₂ →
       ∀ hlen : j < instances.length, instances.get ⟨j, hlen⟩ = .num q →
       0 ≤ key →
       ∀ hk : key.toNat < nodeIp.length,
       (∀ p ∈ L₂, ∀ hp : p.1.toNat < nodeIp.length,
           nodeIp.get ⟨p.1.toNat, hp⟩ ≠ nodeIp.get ⟨key.toNat, hk⟩) →
       j < results.FunctionsCapacity.length →
       ∃ fa, mapLookup a (functions.get ⟨j, hj⟩) = some fa
         ∧ mapLookup fa.Instances (nodeIp.get ⟨key.toNat, hk⟩) = some (ratTrunc q))
    ∧
    (∀ (serversMap : List (String × StatusInformation)) (functions : List String)
       (solverResponse : SolverResults) (G : String → Option FunctionMeta)
       (S : String → Bool) (localRes : NodeResources) (localIp : String)
       (persisted0 : List (String × FunctionMeta)) (nodeIp : List String)
       (j : Nat) (hj : j < functions.length)
       (L₁ L₂ : List (Int × List GoValue)) (key : Int) (instances : List GoValue)
       (t : String),
       nodeIp = (prepareNodeInfo (serversMap.map Prod.snd) localRes localIp).2 →
       functions.Nodup →
       (∀ m (hm : m < functions.length),
         stepOK solverResponse nodeIp G S m (functions.get ⟨m, hm⟩)) →
       solverResponse.NodesInstances = L₁ ++ (key, instances) :: L₂ →
       ∀ hlen : j < instances.length, instances.get ⟨j, hlen⟩ = .other t →
       ∀ hk : key.toNat < nodeIp.length,
       (∀ p ∈ L₁ ++ L₂, ∀ hp : p.1.toNat < nodeIp.length,
           nodeIp.get ⟨p.1.toNat, hp⟩ ≠ nodeIp.get ⟨key.toNat, hk⟩) →
       ∃ (a : FunctionsAllocation) (st : List (String × FunctionMeta))
         (fa : FunctionAllocation),
         computeFunctionsAllocation solverResponse functions nodeIp G S
             localRes.MaximumCapacity persisted0 = (.ok a, st)
         ∧ solve serversMap functions solverResponse G S localRes localIp persisted0
             = [.solverCall, .publish a]
         ∧ mapLookup a (functions.get ⟨j, hj⟩) = some fa
         ∧ mapLookup fa.Instances (nodeIp.get ⟨key.toNat, hk⟩) = none) := by
  constructor
  · intro results functions nodeIp G S maxCap persisted0 a st j hj L₁ L₂ key
      instances q hnd hrun hNI hlen hv hk0 hk hnw hcap
    have hbuild := processFunctions_ok_build results nodeIp G S maxCap functions 0 []
      persisted0 a st hrun j hj
    obtain ⟨m, hb⟩ := (isOk_iff _).mp hbuild
    have hcap0 : 0 + j < results.FunctionsCapacity.length := by omega
    have hentry := processFunctions_plan_entry results nodeIp G S maxCap functions 0 []
      persisted0 a st hnd hrun j hj m hb hcap0
    refine ⟨⟨results.FunctionsCapacity.get ⟨0 + j, hcap0⟩, m⟩, hentry, ?_⟩
    have hlen2 : 0 + j < instances.length := by omega
    have hveq : instances.get ⟨0 + j, hlen2⟩ = .num q := by
      have heq : instances.get ⟨0 + j, hlen2⟩ = instances.get ⟨j, hlen⟩ := by
        congr 1
        exact Fin.ext (Nat.zero_add j)
      rw [heq, hv]
    have hb2 : buildInstancesMap nodeIp (0 + j) (L₁ ++ (key, instances) :: L₂) []
        = .ok m := by
      rw [← hNI]
      exact hb
    exact buildInstancesMap_target_write nodeIp (0 + j) L₁ L₂ key instances q [] m
      hlen2 hveq hk0 hk hnw hb2
  · intro serversMap functions solverResponse G S localRes localIp persisted0 nodeIp
      j hj L₁ L₂ key instances t hip hnd hstep hNI hlen hv hk hnw
    have hok : (computeFunctionsAllocation solverResponse functions nodeIp G S
        localRes.MaximumCapacity persisted0).1.isOk = true := by
      apply processFunctions_ok_of_stepOK
      intro m hm
      rw [Nat.zero_add]
      exact hstep m hm
    obtain ⟨a, ha⟩ := (isOk_iff _).mp hok
    have hrun : computeFunctionsAllocation solverResponse functions nodeIp G S
        localRes.MaximumCapacity persisted0
        = (.ok a, (computeFunctionsAllocation solverResponse functions nodeIp G S
            localRes.MaximumCapacity persisted0).2) := by
      have hpair : computeFunctionsAllocation solverResponse functions nodeIp G S
          localRes.MaximumCapacity persisted0
          = ((computeFunctionsAllocation solverResponse functions nodeIp G S
              localRes.MaximumCapacity persisted0).1,
             (computeFunctionsAllocation solverResponse functions nodeIp G S
              localRes.MaximumCapacity persisted0).2) := rfl
      rw [hpair, ha]
    obtain ⟨hbuildj, hcapj, _, _⟩ := hstep j hj
    obtain ⟨m, hb⟩ := (isOk_iff _).mp hbuildj
    have hcap0 : 0 + j < solverResponse.FunctionsCapacity.length := by omega
    have hb0 : buildInstancesMap nodeIp (0 + j) solverResponse.NodesInstances []
        = .ok m := by
      rw [Nat.zero_add]
      exact hb
    have hentry := processFunctions_plan_entry solverResponse nodeIp G S
      localRes.MaximumCapacity functions 0 [] persisted0 a _ hnd hrun j hj m hb0 hcap0
    have hlen2 : 0 + j < instances.length := by omega
    have hveq : instances.get ⟨0 + j, hlen2⟩ = .other t := by
      have heq : instances.get ⟨0 + j, hlen2⟩ = instances.get ⟨j, hlen⟩ := by
        congr 1
        exact Fin.ext (Nat.zero_add j)
      rw [heq, hv]
    have hb2 : buildInstancesMap nodeIp (0 + j) (L₁ ++ (key, instances) :: L₂) []
        = .ok m := by
      rw [← hNI]
      exact hb0
    have habsent := buildInstancesMap_skip_absent nodeIp (0 + j) L₁ L₂ key instances
      t m hlen2 hveq hk hnw hb2
    have hfne : ¬ (serversMap.length + 1 = 0 ∨ functions.length = 0) := by
      push_neg
      exact ⟨Nat.succ_ne_zero _, by omega⟩
    have hsolve : solve serversMap functions solverResponse G S localRes localIp
        persisted0 = [.solverCall, .publish a] := by
      simp only [solve, if_neg hfne]
      rw [← hip, hrun]
    exact ⟨a, _, ⟨solverResponse.FunctionsCapacity.get ⟨0 + j, hcap0⟩, m⟩,
      hrun, hsolve, hentry, habsent⟩

/-- Witness for C5: `NodesInstances[0][0] = 3.0` yields `Instances["10.0.0.1"] = 3`;
a string entry at that position leaves the pair absent while the cycle still
publishes. -/
theorem instance_coercion_and_skip_witness :
    (∃ fa, mapLookup ([("f", ⟨150, [("10.0.0.1", 3)]⟩)] : FunctionsAllocation) "f"
        = some fa
      ∧ mapLookup fa.Instances "10.0.0.1" = some (ratTrunc 3))
    ∧ (∃ (a : FunctionsAllocation) (st : List (String × FunctionMeta))
         (fa : FunctionAllocation),
         computeFunctionsAllocation
             ⟨0, "OPTIMAL", 0, [], [150], [(0, [GoValue.other "string"])]⟩
             ["f"] ["1.2.3.4"] (fun _ => some ⟨128, 0, 0, 0, 0⟩) (fun _ => false)
             (200 : ℚ) [] = (.ok a, st)
         ∧ solve [] ["f"] ⟨0, "OPTIMAL", 0, [], [150], [(0, [GoValue.other "string"])]⟩
             (fun _ => some ⟨128, 0, 0, 0, 0⟩) (fun _ => false)
             ⟨1000, 400, 200, 1, 400⟩ "1.2.3.4" []
             = [.solverCall, .publish a]
         ∧ mapLookup a "f" = some fa
         ∧ mapLookup fa.Instances "1.2.3.4" = none) := by
  constructor
  · exact instance_coercion_and_skip.1
      ⟨0, "OPTIMAL", 0, [], [150], [(0, [GoValue.num 3])]⟩ ["f"] ["10.0.0.1"]
      (fun _ => some ⟨128, 0, 0, 0, 0⟩) (fun _ => false) 200 []
      [("f", ⟨150, [("10.0.0.1", 3)]⟩)]
      [("f", ⟨128, 0, 0, 0, (goRound ((150 : ℚ) / 200 * 100) : ℚ) / 100⟩)]
      0 (by decide) [] [] 0 [GoValue.num 3] 3 (by decide) rfl rfl (by decide) rfl
      (by decide) (by decide)
      (by intro p hp; exact absurd hp (by simp)) (by decide)
  · exact instance_coercion_and_skip.2
      [] ["f"] ⟨0, "OPTIMAL", 0, [], [150], [(0, [GoValue.other "string"])]⟩
      (fun _ => some ⟨128, 0, 0, 0, 0⟩) (fun _ => false)
      ⟨1000, 400, 200, 1, 400⟩ "1.2.3.4" [] ["1.2.3.4"] 0 (by decide) [] [] 0
      [GoValue.other "string"] "string" rfl (by decide)
      (fun m hm => by
        have hm1 : m < 1 := by simpa using hm
        have hm0 : m = 0 := by omega
        subst hm0
        have hstep0 : stepOK
            ⟨0, "OPTIMAL", 0, [], [150], [(0, [GoValue.other "string"])]⟩
            ["1.2.3.4"] (fun _ => some ⟨128, 0, 0, 0, 0⟩) (fun _ => false)
            0 "f" := by decide
        exact hstep0)
      rfl (by decide) rfl (by decide)
      (by intro p hp; exact absurd hp (by simp))

end Solver
